import Mathlib

/-!
Verification of the task-orchestration core of the opensearch-py noxfile.

The first section embeds the pure per-folder lint resolver from
src/noxfile.py (the fixed source locations, the exclusion list, the default
and override rule tables, and the pylint argument construction).

The second section gives an executable model of the task layer: registered
tasks, per-version environment provisioning, sequential command execution
with first-failure abort, working-directory scopes, and sub-task invocation
with in-progress-chain cycle tracking.  The driver semantics (session
matrix, cycle detection, chdir scope release) are not part of the
repository file itself, so they are modelled from the specification; the
concrete task bodies and all argument lists are transcribed from
src/noxfile.py.
-/

namespace Nox

/-- The fixed ordered list of source locations, from src/noxfile.py. -/
def SOURCE_FILES : List String :=
  ["setup.py",
   "noxfile.py",
   "opensearchpy/",
   "test_opensearchpy/",
   "utils/",
   "samples/",
   "benchmarks/",
   "docs/"]

/-- Paths excluded from per-folder linting, from src/noxfile.py (empty). -/
def exclude_path_from_linting : List String := []

/-- The default pylint rule-set, from src/noxfile.py. -/
def default_enable : List String :=
  ["line-too-long",
   "invalid-name",
   "pointless-statement",
   "unspecified-encoding",
   "missing-function-docstring",
   "missing-param-doc",
   "differing-param-doc"]

/-- The per-location override table, from src/noxfile.py. -/
def override_enable : List (String × List String) :=
  [("test_opensearchpy/",
    ["line-too-long",
     "pointless-statement",
     "unspecified-encoding",
     "missing-param-doc",
     "differing-param-doc"]),
   ("opensearchpy/",
    ["line-too-long",
     "invalid-name",
     "pointless-statement",
     "unspecified-encoding"])]

/-- Exact-key lookup in the override table (Python dict membership plus
indexing in lint_per_folder). -/
def lookupOverride (ov : List (String × List String)) (sf : String) :
    Option (List String) :=
  match ov with
  | [] => none
  | (k, v) :: rest => if k = sf then some v else lookupOverride rest sf

/-- The per-location resolution loop of lint_per_folder: walk the locations
in order, skip the excluded ones, pair each remaining location with its
override rule-set when present and with the default rule-set otherwise. -/
def resolveRules (locations exclusions : List String)
    (overrides : List (String × List String)) (dflt : List String) :
    List (String × List String) :=
  match locations with
  | [] => []
  | sf :: rest =>
    if sf ∈ exclusions then resolveRules rest exclusions overrides dflt
    else (sf, (lookupOverride overrides sf).getD dflt) ::
      resolveRules rest exclusions overrides dflt

/-- The pylint argument list built by lint_per_folder for one location with
its resolved rule-set, from src/noxfile.py. -/
def pylintArgs (enable : List String) (sf : String) : List String :=
  ["--disable=all",
   "--max-line-length=240",
   "--good-names-rgxs=^[_a-z][_a-z0-9]?$",
   "--load-plugins",
   "pylint.extensions.docparams"]
  ++ ["--enable=" ++ String.intercalate "," enable, sf]

/-- The full command for one location: session.run is given the tool name
followed by the argument list. -/
def lint_per_folder_invocations : List (List String) :=
  (resolveRules SOURCE_FILES exclude_path_from_linting override_enable
      default_enable).map
    (fun p => "pylint" :: pylintArgs p.2 p.1)

/-- An externally observable action of a task: a package installation, an
external command, or the provisioning of a fresh environment. -/
inductive Act
  | install (args : List String)
  | cmd (args : List String)
  | provision (env : Nat)
deriving DecidableEq

/-- A basic step (no sub-invocation, no directory scope). -/
inductive BStep
  | install (args : List String)
  | run (args : List String)
deriving DecidableEq

/-- The action performed by a basic step. -/
def bAct : BStep → Act
  | BStep.install a => Act.install a
  | BStep.run a => Act.cmd a

/-- A step of a task body: install into the session environment, run a
command, run basic steps inside a working-directory scope, or invoke
another registered task (reuse = the caller passes its own session). -/
inductive Step
  | install (args : List String)
  | run (args : List String)
  | withDir (d : String) (inner : List BStep)
  | invoke (name : String) (reuse : Bool)
deriving DecidableEq

/-- A registered task: name, declared runtime-version matrix, body. -/
structure TaskDef where
  name : String
  versions : List String
  body : List Step
deriving DecidableEq

/-- One trace entry: the working directory and environment in which an
action was performed, and the action itself. -/
structure Entry where
  dir : String
  env : Nat
  act : Act
deriving DecidableEq

/-- Outcome of an execution. -/
inductive Outcome
  | pass
  | cmdFail
  | provFail
  | cycleErr
  | nameErr
  | fuelOut
deriving DecidableEq

/-- Lookup of a registered task by name. -/
def findTask (r : List TaskDef) (n : String) : Option TaskDef :=
  match r with
  | [] => none
  | t :: rest => if t.name = n then some t else findTask rest n

/-- Modelled from the spec: sequential execution of basic steps with
first-failure abort; the command runner is the oracle deciding each
action's pass/fail signal. -/
def execBasics (oracle : Act → Bool) (dir : String) (env : Nat) :
    List BStep → Outcome × List Entry
  | [] => (Outcome.pass, [])
  | b :: rest =>
    if oracle (bAct b) then
      let res := execBasics oracle dir env rest
      (res.1, ⟨dir, env, bAct b⟩ :: res.2)
    else
      ((match b with
        | BStep.install _ => Outcome.provFail
        | BStep.run _ => Outcome.cmdFail),
       [⟨dir, env, bAct b⟩])

/-- Modelled from the spec: sequential execution of a task body with
first-failure abort.  The handler h executes an invoked sub-task; the
in-progress invocation chain is checked before the handler runs, failing
fast with a cycle error when a name reappears.  A sub-task invoked without
explicit reuse of the caller's session gets a freshly provisioned
environment; a working-directory scope is released whatever the outcome
of its inner steps.  The returned string is the working directory after
the steps. -/
def execList (h : String → List String → String → Nat → Outcome × List Entry)
    (oracle : Act → Bool) (chain : List String) :
    String → Nat → List Step → Outcome × List Entry × String
  | dir, _, [] => (Outcome.pass, [], dir)
  | dir, env, Step.install a :: rest =>
    if oracle (Act.install a) then
      let res := execList h oracle chain dir env rest
      (res.1, ⟨dir, env, Act.install a⟩ :: res.2.1, res.2.2)
    else (Outcome.provFail, [⟨dir, env, Act.install a⟩], dir)
  | dir, env, Step.run a :: rest =>
    if oracle (Act.cmd a) then
      let res := execList h oracle chain dir env rest
      (res.1, ⟨dir, env, Act.cmd a⟩ :: res.2.1, res.2.2)
    else (Outcome.cmdFail, [⟨dir, env, Act.cmd a⟩], dir)
  | dir, env, Step.withDir d inner :: rest =>
    let res := execBasics oracle d env inner
    if res.1 = Outcome.pass then
      let res2 := execList h oracle chain dir env rest
      (res2.1, res.2 ++ res2.2.1, res2.2.2)
    else (res.1, res.2, dir)
  | dir, env, Step.invoke n reuse :: rest =>
    if n ∈ chain then (Outcome.cycleErr, [], dir)
    else
      let subEnv := if reuse then env else env + 1
      let pre : List Entry :=
        if reuse then [] else [⟨dir, subEnv, Act.provision subEnv⟩]
      let res := h n chain dir subEnv
      if res.1 = Outcome.pass then
        let res2 := execList h oracle chain dir env rest
        (res2.1, pre ++ res.2 ++ res2.2.1, res2.2.2)
      else (res.1, pre ++ res.2, dir)

/-- Modelled from the spec: execution of a registered task by name.  The
task's name is pushed onto the in-progress chain and its body runs; the
fuel bounds the nesting depth of sub-task invocations. -/
def execTask (r : List TaskDef) (oracle : Act → Bool) :
    Nat → String → List String → String → Nat → Outcome × List Entry
  | 0, _, _, _, _ => (Outcome.fuelOut, [])
  | fuel + 1, n, chain, dir, env =>
    match findTask r n with
    | none => (Outcome.nameErr, [])
    | some t =>
      let res := execList (execTask r oracle fuel) oracle (n :: chain) dir env
        t.body
      (res.1, res.2.1)

/-- Execution of a list of steps, with sub-task invocations handled by
execTask at the given fuel. -/
def runBody (r : List TaskDef) (oracle : Act → Bool) (fuel : Nat)
    (chain : List String) (dir : String) (env : Nat) (steps : List Step) :
    Outcome × List Entry × String :=
  execList (execTask r oracle fuel) oracle chain dir env steps

/-- Top-level invocation of one task by name from an empty chain. -/
def invokeTop (r : List TaskDef) (oracle : Act → Bool) (fuel : Nat)
    (n : String) : Outcome × List Entry × String :=
  execList (execTask r oracle fuel) oracle [] "." 0 [Step.invoke n true]

/-- One run of a task body for one declared runtime version. -/
structure VersionRun where
  version : String
  env : Nat
  result : Outcome
  trace : List Entry
deriving DecidableEq

/-- Modelled from the spec: one execution per declared version, in declared
order, each with its own freshly provisioned environment (numbered by
position); a version whose provisioning fails (pOracle) yields a provision
failure for that version, but later versions are still attempted. -/
def runVersions (r : List TaskDef) (oracle : Act → Bool)
    (pOracle : String → Bool) (fuel : Nat) (t : TaskDef) :
    Nat → List String → List VersionRun
  | _, [] => []
  | i, v :: vs =>
    (if pOracle v then
      let res := runBody r oracle fuel [t.name] "." i t.body
      ⟨v, i, res.1, res.2.1⟩
    else ⟨v, i, Outcome.provFail, []⟩) ::
      runVersions r oracle pOracle fuel t (i + 1) vs

/-- Modelled from the spec: a task with no declared version sequence runs
once against the default runtime. -/
def matrixVersions (t : TaskDef) : List String :=
  if t.versions = [] then ["default"] else t.versions

/-- Modelled from the spec: invoking a task with no version constraint runs
it once per entry of its version matrix. -/
def runTaskMatrix (r : List TaskDef) (oracle : Act → Bool)
    (pOracle : String → Bool) (fuel : Nat) (t : TaskDef) : List VersionRun :=
  runVersions r oracle pOracle fuel t 0 (matrixVersions t)

/-- Modelled from the spec: the aggregated matrix outcome passes only if
every version's execution passed. -/
def overallPass (runs : List VersionRun) : Bool :=
  runs.all (fun rr => decide (rr.result = Outcome.pass))

/-- Body of the test session, from src/noxfile.py. -/
def testBody : List Step :=
  [Step.install ["."],
   Step.run ["python", "-c",
     "import opensearchpy\nprint(opensearchpy.OpenSearch())"],
   Step.install [".[async]"],
   Step.run ["python", "-c",
     "import opensearchpy\nprint(opensearchpy.AsyncOpenSearch())"],
   Step.install ["-r", "dev-requirements.txt"],
   Step.run ["python", "setup.py", "test"]]

/-- The test session with its declared version matrix, from src/noxfile.py. -/
def testTask : TaskDef :=
  ⟨"test", ["3.6", "3.7", "3.8", "3.9", "3.10", "3.11"], testBody⟩

/-- Body of the format session, from src/noxfile.py; the final direct call
lint(session) passes the calling session explicitly. -/
def formatBody : List Step :=
  [Step.install ["."],
   Step.install ["black", "isort"],
   Step.run ("isort" :: SOURCE_FILES),
   Step.run ("black" :: SOURCE_FILES),
   Step.run (["python", "utils/license_headers.py", "fix"] ++ SOURCE_FILES),
   Step.invoke "lint" true]

/-- The format session, from src/noxfile.py. -/
def formatTask : TaskDef := ⟨"format", ["3.7"], formatBody⟩

/-- The linter and type-stub packages installed by the lint session, from
src/noxfile.py. -/
def lintInstallPackages : List String :=
  ["flake8", "black", "mypy", "isort", "pylint",
   "types-requests", "types-six", "types-simplejson",
   "types-python-dateutil", "types-PyYAML", "types-mock", "types-pytz"]

/-- Body of the lint session, from src/noxfile.py; the helper
lint_per_folder runs inside the same session, so its per-location pylint
commands appear inline. -/
def lintBody : List Step :=
  [Step.install lintInstallPackages,
   Step.run ("isort" :: "--check" :: SOURCE_FILES),
   Step.run ("black" :: "--check" :: SOURCE_FILES),
   Step.run ("flake8" :: SOURCE_FILES)]
  ++ lint_per_folder_invocations.map Step.run
  ++ [Step.run (["python", "utils/license_headers.py", "check"] ++ SOURCE_FILES),
   Step.run ["python", "-m", "pip", "install", "aiohttp"],
   Step.run (["mypy", "--strict"] ++ SOURCE_FILES),
   Step.run ["mypy", "--strict", "test_opensearchpy/test_types/sync_types.py"],
   Step.run ["mypy", "--strict", "test_opensearchpy/test_types/async_types.py"],
   Step.run ["python", "-m", "pip", "uninstall", "--yes", "aiohttp"],
   Step.run ["mypy", "--strict", "opensearchpy/"],
   Step.run ["mypy", "--strict", "test_opensearchpy/test_types/sync_types.py"]]

/-- The lint session, from src/noxfile.py. -/
def lintTask : TaskDef := ⟨"lint", ["3.7"], lintBody⟩

/-- Body of the docs session, from src/noxfile.py: the doc-site build runs
within a working-directory scope bound to the docs location. -/
def docsBody : List Step :=
  [Step.install ["."],
   Step.install [".[docs]"],
   Step.withDir "docs" [BStep.run ["make", "html"]]]

/-- The docs session, from src/noxfile.py (no declared version matrix). -/
def docsTask : TaskDef := ⟨"docs", [], docsBody⟩

/-- Body of the generate session, from src/noxfile.py; the final direct
call format(session) passes the calling session explicitly. -/
def generateBody : List Step :=
  [Step.install ["-rdev-requirements.txt"],
   Step.run ["python", "utils/generate_api.py"],
   Step.invoke "format" true]

/-- The generate session, from src/noxfile.py. -/
def generateTask : TaskDef := ⟨"generate", [], generateBody⟩

/-- The registry of sessions declared with a session decorator in
src/noxfile.py, in file order.  lint_per_folder carries no decorator and
is therefore not registered. -/
def noxRegistry : List TaskDef :=
  [testTask, formatTask, lintTask, docsTask, generateTask]

/-- The names of the tasks invoked by a list of steps. -/
def stepsInvokes : List Step → List String
  | [] => []
  | Step.invoke n _ :: rest => n :: stepsInvokes rest
  | _ :: rest => stepsInvokes rest

/-- Every task invoked from these steps is registered. -/
def stepsClosed (r : List TaskDef) (steps : List Step) : Bool :=
  (stepsInvokes steps).all (fun n => (findTask r n).isSome)

/-- Every task invoked from any registered body is registered. -/
def closedB (r : List TaskDef) : Bool :=
  r.all (fun t => stepsClosed r t.body)

/-- The invocation-graph edge: task a's body invokes task b. -/
def edgeB (r : List TaskDef) (a b : String) : Bool :=
  match findTask r a with
  | some t => decide (b ∈ stepsInvokes t.body)
  | none => false

/-- a reaches b along the given intermediate path of invocation edges. -/
def leadsToB (r : List TaskDef) : String → List String → String → Bool
  | a, [], b => decide (a = b)
  | a, c :: q, b => edgeB r a c && leadsToB r c q b

/-- The command-runner oracle under which every external command passes. -/
def oracleTrue : Act → Bool := fun _ => true

/-- An oracle failing exactly the optional-extra install of the test body. -/
def failAsyncInstall : Act → Bool :=
  fun a => !(decide (a = Act.install [".[async]"]))

/-- An oracle failing exactly the doc-site build command. -/
def failBuild : Act → Bool :=
  fun a => !(decide (a = Act.cmd ["make", "html"]))

/-- A provisioning oracle failing exactly runtime version 3.6. -/
def skip36 : String → Bool := fun v => !(decide (v = "3.6"))

/-- A registry whose single task runs a command and then invokes itself. -/
def selfR : List TaskDef :=
  [⟨"A", [], [Step.run ["echo", "hi"], Step.invoke "A" true]⟩]

/-- A registry with a two-task invocation cycle behind a first command. -/
def cycR : List TaskDef :=
  [⟨"A", [], [Step.run ["echo", "a"], Step.invoke "B" true]⟩,
   ⟨"B", [], [Step.invoke "A" true]⟩]

/-- The action of a basic-shaped step, none for scopes and invocations. -/
def stepAct : Step → Option Act
  | Step.install a => some (Act.install a)
  | Step.run a => some (Act.cmd a)
  | _ => none

/-- True when the steps are all installs or commands. -/
def basicOnly : List Step → Bool
  | [] => true
  | Step.install _ :: rest => basicOnly rest
  | Step.run _ :: rest => basicOnly rest
  | _ => false

/-- The actions of a list of basic-shaped steps. -/
def stepsActs (steps : List Step) : List Act := steps.filterMap stepAct

/-- The executed actions predicted for a basic sequence: every action up to
and including the first one the oracle fails. -/
def specActsTrace (oracle : Act → Bool) : List Act → List Act
  | [] => []
  | a :: rest => if oracle a then a :: specActsTrace oracle rest else [a]

/-- The declared action sequence of the test body. -/
def testActs : List Act :=
  [Act.install ["."],
   Act.cmd ["python", "-c",
     "import opensearchpy\nprint(opensearchpy.OpenSearch())"],
   Act.install [".[async]"],
   Act.cmd ["python", "-c",
     "import opensearchpy\nprint(opensearchpy.AsyncOpenSearch())"],
   Act.install ["-r", "dev-requirements.txt"],
   Act.cmd ["python", "setup.py", "test"]]

/-- The action trace of the lint session when every command passes. -/
def lintTraceActs : List Act :=
  (runBody noxRegistry oracleTrue 50 ["lint"] "." 0 lintBody).2.1.map Entry.act

/-- True for a command invoking the type-checker. -/
def isMypy : Act → Bool
  | Act.cmd (c :: _) => decide (c = "mypy")
  | _ => false

/-- True when the action does not name the asynchronous type-example file. -/
def mentionsNoAsyncTypes : Act → Bool
  | Act.cmd args =>
    !(decide ("test_opensearchpy/test_types/async_types.py" ∈ args))
  | _ => true

/-- C1: for every ordered list of source locations, exclusion set, override
table and default rule-set, the resolution loop of lint_per_folder returns
exactly the input locations in declared order restricted to the
non-excluded ones, each paired with its exact-key override when the table
has one and with the default rule-set otherwise (never a union of the
two). -/
theorem resolver_characterization
    (locations exclusions : List String)
    (overrides : List (String × List String)) (dflt : List String) :
    resolveRules locations exclusions overrides dflt =
      (locations.filter fun sf => decide (¬ sf ∈ exclusions)).map
        fun sf => (sf, (lookupOverride overrides sf).getD dflt) := by
  induction locations with
  | nil => rfl
  | cons sf rest ih =>
    by_cases h : sf ∈ exclusions
    · simp [resolveRules, h, ih]
    · simp [resolveRules, h, ih]

/-- C2: for every non-excluded source location, the pylint argument list
starts with the disable-all baseline flag, contains the maximum-line-length
and naming-pattern parameters, contains exactly one enable argument whose
value is the resolved rule-set joined by commas in declared order, and ends
with the location path. -/
theorem pylint_invocation_shape :
    ∀ sf, sf ∈ SOURCE_FILES → ¬ sf ∈ exclude_path_from_linting →
      (pylintArgs ((lookupOverride override_enable sf).getD default_enable)
          sf).head? = some "--disable=all" ∧
      "--max-line-length=240" ∈
        pylintArgs ((lookupOverride override_enable sf).getD default_enable)
          sf ∧
      "--good-names-rgxs=^[_a-z][_a-z0-9]?$" ∈
        pylintArgs ((lookupOverride override_enable sf).getD default_enable)
          sf ∧
      (pylintArgs ((lookupOverride override_enable sf).getD default_enable)
          sf).filter (fun a => List.isPrefixOf ("--enable=".data) a.data) =
        ["--enable=" ++ String.intercalate ","
          ((lookupOverride override_enable sf).getD default_enable)] ∧
      (pylintArgs ((lookupOverride override_enable sf).getD default_enable)
          sf).getLast? = some sf := by
  decide

/-- C2 witness at the location with a documented override. -/
theorem pylint_invocation_shape_witness :
    ("test_opensearchpy/" ∈ SOURCE_FILES ∧
      ¬ "test_opensearchpy/" ∈ exclude_path_from_linting) ∧
    (pylintArgs
        ((lookupOverride override_enable "test_opensearchpy/").getD
          default_enable) "test_opensearchpy/").filter
        (fun a => List.isPrefixOf ("--enable=".data) a.data) =
      ["--enable=" ++ String.intercalate ","
        ((lookupOverride override_enable "test_opensearchpy/").getD
          default_enable)] :=
  ⟨⟨by decide, by decide⟩,
   (pylint_invocation_shape "test_opensearchpy/" (by decide)
     (by decide)).2.2.2.1⟩

/-- C10: the exclusion list is empty, so the per-folder lint pass emits
exactly one style-checker invocation per declared source location, eight in
all, with the locations appearing as the final argument in declaration
order. -/
theorem lint_per_folder_covers_all_locations :
    exclude_path_from_linting = [] ∧
    SOURCE_FILES.length = 8 ∧
    lint_per_folder_invocations.length = 8 ∧
    lint_per_folder_invocations.map (fun c => c.getLast?) =
      SOURCE_FILES.map some := by
  decide

/-- C6 counterexample: the registry built from the session decorators of
src/noxfile.py holds exactly five names; the per-location lint pass is not
registered under any name, so a driver cannot select it. -/
theorem six_tasks_counterexample :
    noxRegistry.map TaskDef.name = ["test", "format", "lint", "docs", "generate"] ∧
    findTask noxRegistry "lint-per-location" = none ∧
    findTask noxRegistry "lint_per_folder" = none := by
  decide

/-- C6 amended: five tasks (test, format, lint, docs, generate) are
registered and selectable by name; the per-location lint pass is an
unregistered helper whose style-checker invocations run inside the lint
task. -/
theorem five_tasks_registered :
    (["test", "format", "lint", "docs", "generate"].all
      (fun n => (findTask noxRegistry n).isSome)) = true ∧
    noxRegistry.length = 5 ∧
    findTask noxRegistry "lint_per_folder" = none ∧
    findTask noxRegistry "lint-per-location" = none ∧
    (lint_per_folder_invocations.all
      (fun c => decide (Step.run c ∈ lintBody))) = true := by
  decide

/-- C8: in the lint task, the trace after the first thirteen steps is
exactly: re-install the networking extra, three strict type-checker runs
(all locations, the synchronous example, the asynchronous example),
uninstall the extra, then exactly two further strict type-checker runs
(installed package, synchronous example), neither naming the asynchronous
example. -/
theorem lint_final_segment :
    lintTraceActs.drop 13 =
      [Act.cmd ["python", "-m", "pip", "install", "aiohttp"],
       Act.cmd (["mypy", "--strict"] ++ SOURCE_FILES),
       Act.cmd ["mypy", "--strict",
         "test_opensearchpy/test_types/sync_types.py"],
       Act.cmd ["mypy", "--strict",
         "test_opensearchpy/test_types/async_types.py"],
       Act.cmd ["python", "-m", "pip", "uninstall", "--yes", "aiohttp"],
       Act.cmd ["mypy", "--strict", "opensearchpy/"],
       Act.cmd ["mypy", "--strict",
         "test_opensearchpy/test_types/sync_types.py"]] ∧
    lintTraceActs.length = 20 ∧
    ((lintTraceActs.drop 18).filter isMypy).length = 2 ∧
    ((lintTraceActs.drop 18).all mentionsNoAsyncTypes) = true := by
  decide

theorem execList_basic
    (h : String → List String → String → Nat → Outcome × List Entry)
    (oracle : Act → Bool) :
    ∀ (steps : List Step) (chain : List String) (dir : String) (env : Nat),
      basicOnly steps = true →
      ((execList h oracle chain dir env steps).2.1.map Entry.act =
        specActsTrace oracle (stepsActs steps)) ∧
      ((execList h oracle chain dir env steps).1 = Outcome.pass ↔
        (stepsActs steps).all oracle = true) := by
  intro steps
  induction steps with
  | nil =>
    intro chain dir env _
    exact ⟨rfl, by simp [execList, stepsActs]⟩
  | cons s rest ih =>
    intro chain dir env hb
    cases s with
    | install a =>
      have hrest : basicOnly rest = true := by simpa [basicOnly] using hb
      have H := ih chain dir env hrest
      by_cases ho : oracle (Act.install a)
      · constructor
        · simp [execList, ho, stepsActs, stepAct, specActsTrace, H.1,
            List.filterMap_cons]
        · simp [execList, ho, stepsActs, stepAct, List.filterMap_cons, H.2]
      · constructor
        · simp [execList, ho, stepsActs, stepAct, specActsTrace,
            List.filterMap_cons]
        · simp [execList, ho, stepsActs, stepAct, List.filterMap_cons]
    | run a =>
      have hrest : basicOnly rest = true := by simpa [basicOnly] using hb
      have H := ih chain dir env hrest
      by_cases ho : oracle (Act.cmd a)
      · constructor
        · simp [execList, ho, stepsActs, stepAct, specActsTrace, H.1,
            List.filterMap_cons]
        · simp [execList, ho, stepsActs, stepAct, List.filterMap_cons, H.2]
      · constructor
        · simp [execList, ho, stepsActs, stepAct, specActsTrace,
            List.filterMap_cons]
        · simp [execList, ho, stepsActs, stepAct, List.filterMap_cons]
    | withDir d inner => simp [basicOnly] at hb
    | invoke n rb => simp [basicOnly] at hb

theorem specActsTrace_take (oracle : Act → Bool) :
    ∀ acts : List Act,
      specActsTrace oracle acts =
        acts.take (specActsTrace oracle acts).length := by
  intro acts
  induction acts with
  | nil => rfl
  | cons a rest ih =>
    by_cases ho : oracle a
    · simp [specActsTrace, ho]
      exact ih
    · simp [specActsTrace, ho]

theorem specActsTrace_earlier (oracle : Act → Bool) :
    ∀ (acts : List Act) (i j : Nat), i < j →
      j < (specActsTrace oracle acts).length →
      oracle (acts.getD i (Act.cmd [])) = true := by
  intro acts
  induction acts with
  | nil =>
    intro i j hij hj
    simp [specActsTrace] at hj
  | cons a rest ih =>
    intro i j hij hj
    by_cases ho : oracle a
    · cases i with
      | zero => simpa using ho
      | succ i =>
        cases j with
        | zero => omega
        | succ j =>
          have hj2 : j < (specActsTrace oracle rest).length := by
            simpa [specActsTrace, ho] using hj
          simpa using ih i j (by omega) hj2
    · simp [specActsTrace, ho] at hj
      omega

/-- C7: with every step passing, the test body executes exactly its six
declared actions in order (install project, synchronous smoke command,
install async extra, asynchronous smoke command, install development
requirements, run the test suite); and under any pass/fail oracle the
executed actions are an initial segment of that declared sequence, a later
action executing only when every earlier action passed. -/
theorem test_task_order :
    ((runBody noxRegistry oracleTrue 20 ["test"] "." 0 testBody).2.1.map
        Entry.act = testActs ∧
     (runBody noxRegistry oracleTrue 20 ["test"] "." 0 testBody).1 =
        Outcome.pass) ∧
    ∀ (oracle : Act → Bool) (fuel : Nat),
      ((runBody noxRegistry oracle fuel ["test"] "." 0 testBody).2.1.map
          Entry.act =
        testActs.take
          ((runBody noxRegistry oracle fuel ["test"] "." 0
            testBody).2.1.map Entry.act).length) ∧
      (∀ i j : Nat, i < j →
        j < ((runBody noxRegistry oracle fuel ["test"] "." 0
          testBody).2.1.map Entry.act).length →
        oracle (testActs.getD i (Act.cmd [])) = true) := by
  refine ⟨⟨by decide, by decide⟩, ?_⟩
  intro oracle fuel
  have hb : basicOnly testBody = true := by decide
  have hacts : stepsActs testBody = testActs := by decide
  have H := execList_basic (execTask noxRegistry oracle fuel) oracle testBody
    ["test"] "." 0 hb
  rw [hacts] at H
  constructor
  · simp only [runBody]
    rw [H.1]
    exact specActsTrace_take oracle testActs
  · intro i j hij hj
    simp only [runBody] at hj
    rw [H.1] at hj
    exact specActsTrace_earlier oracle testActs i j hij hj

/-- C7 witness: when the async-extra install fails, the first action still
passed. -/
theorem test_task_order_witness :
    failAsyncInstall (testActs.getD 0 (Act.cmd [])) = true :=
  (test_task_order.2 failAsyncInstall 20).2 0 1 (by omega) (by decide)

/-- C9: the doc-site build command of the docs task runs with the working
directory bound to the docs location, and the working-directory scope is
released (the directory after the body is the original one) under every
pass/fail oracle, whether the build succeeds or fails. -/
theorem docs_scope_semantics :
    ((runBody noxRegistry oracleTrue 10 ["docs"] "." 0 docsBody).2.1 =
      [⟨".", 0, Act.install ["."]⟩,
       ⟨".", 0, Act.install [".[docs]"]⟩,
       ⟨"docs", 0, Act.cmd ["make", "html"]⟩] ∧
     (runBody noxRegistry oracleTrue 10 ["docs"] "." 0 docsBody).2.2 = ".") ∧
    ∀ (oracle : Act → Bool) (fuel : Nat),
      (runBody noxRegistry oracle fuel ["docs"] "." 0 docsBody).2.2 = "." ∧
      (∀ e ∈ (runBody noxRegistry oracle fuel ["docs"] "." 0 docsBody).2.1,
        e.act = Act.cmd ["make", "html"] → e.dir = "docs") := by
  refine ⟨⟨by decide, by decide⟩, ?_⟩
  intro oracle fuel
  by_cases h1 : oracle (Act.install ["."])
  · by_cases h2 : oracle (Act.install [".[docs]"])
    · by_cases h3 : oracle (Act.cmd ["make", "html"])
      · constructor
        · simp [runBody, docsBody, execList, execBasics, bAct, h1, h2, h3]
        · intro e he hact
          simp [runBody, docsBody, execList, execBasics, bAct, h1, h2, h3]
            at he
          rcases he with he | he | he <;> simp [he] at hact ⊢
      · constructor
        · simp [runBody, docsBody, execList, execBasics, bAct, h1, h2, h3]
        · intro e he hact
          simp [runBody, docsBody, execList, execBasics, bAct, h1, h2, h3]
            at he
          rcases he with he | he | he <;> simp [he] at hact ⊢
    · constructor
      · simp [runBody, docsBody, execList, execBasics, bAct, h1, h2]
      · intro e he hact
        simp [runBody, docsBody, execList, execBasics, bAct, h1, h2] at he
        rcases he with he | he <;> simp [he] at hact ⊢
  · constructor
    · simp [runBody, docsBody, execList, execBasics, bAct, h1]
    · intro e he hact
      simp [runBody, docsBody, execList, execBasics, bAct, h1] at he
      simp [he] at hact ⊢

/-- C9 witness: even when the build command fails, the working directory
after the docs body is the original one. -/
theorem docs_scope_semantics_witness :
    (runBody noxRegistry failBuild 10 ["docs"] "." 0 docsBody).2.2 = "." :=
  (docs_scope_semantics.2 failBuild 10).1

/-- C4: invoking a registered task as a sub-step provisions a fresh
environment, distinct from the caller's environment, in which the
sub-task's body then executes — unless reuse of the caller's session is
explicitly requested, in which case the body executes in the caller's
environment with no provisioning; the noxfile's two sub-invocations
(format invoking lint, generate invoking format) both pass the calling
session explicitly. -/
theorem invoke_reuse_semantics (r : List TaskDef) (oracle : Act → Bool)
    (fuel : Nat) (chain : List String) (dir : String) (env : Nat)
    (n : String) (rest : List Step) (hn : ¬ n ∈ chain) :
    (∃ tail,
      (runBody r oracle fuel chain dir env
          (Step.invoke n false :: rest)).2.1 =
        ⟨dir, env + 1, Act.provision (env + 1)⟩ ::
          ((execTask r oracle fuel n chain dir (env + 1)).2 ++ tail)) ∧
    env + 1 ≠ env ∧
    (∃ tail,
      (runBody r oracle fuel chain dir env
          (Step.invoke n true :: rest)).2.1 =
        (execTask r oracle fuel n chain dir env).2 ++ tail) ∧
    Step.invoke "lint" true ∈ formatBody ∧
    Step.invoke "format" true ∈ generateBody := by
  refine ⟨?_, by omega, ?_, by decide, by decide⟩
  · by_cases hp :
      (execTask r oracle fuel n chain dir (env + 1)).1 = Outcome.pass
    · exact ⟨(execList (execTask r oracle fuel) oracle chain dir env
        rest).2.1, by simp [runBody, execList, hn, hp]⟩
    · exact ⟨[], by simp [runBody, execList, hn, hp]⟩
  · by_cases hp :
      (execTask r oracle fuel n chain dir env).1 = Outcome.pass
    · exact ⟨(execList (execTask r oracle fuel) oracle chain dir env
        rest).2.1, by simp [runBody, execList, hn, hp]⟩
    · exact ⟨[], by simp [runBody, execList, hn, hp]⟩

/-- C4 witness at the lint task invoked from an empty chain. -/
theorem invoke_reuse_semantics_witness :
    (¬ "lint" ∈ ([] : List String)) ∧
    (Step.invoke "lint" true ∈ formatBody ∧
     Step.invoke "format" true ∈ generateBody) :=
  ⟨by decide,
   (invoke_reuse_semantics noxRegistry oracleTrue 30 [] "." 0 "lint" []
     (by decide)).2.2.2⟩

theorem runVersions_map_version (r : List TaskDef) (oracle : Act → Bool)
    (pOracle : String → Bool) (fuel : Nat) (t : TaskDef) :
    ∀ (vs : List String) (i : Nat),
      (runVersions r oracle pOracle fuel t i vs).map VersionRun.version =
        vs := by
  intro vs
  induction vs with
  | nil => intro i; rfl
  | cons v rest ih =>
    intro i
    by_cases hp : pOracle v <;> simp [runVersions, hp, ih (i + 1)]

theorem runVersions_map_env (r : List TaskDef) (oracle : Act → Bool)
    (pOracle : String → Bool) (fuel : Nat) (t : TaskDef) :
    ∀ (vs : List String) (i : Nat),
      (runVersions r oracle pOracle fuel t i vs).map VersionRun.env =
        List.range' i vs.length := by
  intro vs
  induction vs with
  | nil => intro i; rfl
  | cons v rest ih =>
    intro i
    by_cases hp : pOracle v <;>
      simp [runVersions, hp, ih (i + 1), List.range'_succ]

theorem runVersions_shape (r : List TaskDef) (oracle : Act → Bool)
    (pOracle : String → Bool) (fuel : Nat) (t : TaskDef) :
    ∀ (vs : List String) (i : Nat),
      ∀ rr ∈ runVersions r oracle pOracle fuel t i vs,
        (pOracle rr.version = true →
          rr.result = (runBody r oracle fuel [t.name] "." rr.env t.body).1 ∧
          rr.trace = (runBody r oracle fuel [t.name] "." rr.env t.body).2.1) ∧
        (pOracle rr.version = false →
          rr.result = Outcome.provFail ∧ rr.trace = []) := by
  intro vs
  induction vs with
  | nil => intro i rr hrr; simp [runVersions] at hrr
  | cons v rest ih =>
    intro i rr hrr
    rw [runVersions] at hrr
    rcases List.mem_cons.mp hrr with heq | hmem
    · by_cases hp : pOracle v
      · subst heq
        simp [hp]
      · subst heq
        simp [hp]
    · exact ih (i + 1) rr hmem

/-- C3: a task declaring a non-empty version sequence runs once per
declared version in declared order, each run in its own environment
(pairwise distinct), always producing exactly as many version runs —
hence provisioning attempts — as declared versions, whatever passed or
failed earlier; each provisioned run executes the body, a run whose
provisioning failed executes nothing; and the aggregate passes exactly
when every version run passed. -/
theorem version_matrix (r : List TaskDef) (oracle : Act → Bool)
    (pOracle : String → Bool) (fuel : Nat) (t : TaskDef)
    (h : t.versions ≠ []) :
    (runTaskMatrix r oracle pOracle fuel t).map VersionRun.version =
      t.versions ∧
    (runTaskMatrix r oracle pOracle fuel t).length = t.versions.length ∧
    ((runTaskMatrix r oracle pOracle fuel t).map VersionRun.env).Nodup ∧
    (overallPass (runTaskMatrix r oracle pOracle fuel t) = true ↔
      ∀ rr ∈ runTaskMatrix r oracle pOracle fuel t,
        rr.result = Outcome.pass) ∧
    (∀ rr ∈ runTaskMatrix r oracle pOracle fuel t,
      (pOracle rr.version = true →
        rr.result = (runBody r oracle fuel [t.name] "." rr.env t.body).1 ∧
        rr.trace = (runBody r oracle fuel [t.name] "." rr.env t.body).2.1) ∧
      (pOracle rr.version = false →
        rr.result = Outcome.provFail ∧ rr.trace = [])) := by
  have hm : matrixVersions t = t.versions := by
    simp [matrixVersions, h]
  refine ⟨?_, ?_, ?_, ?_, ?_⟩
  · rw [runTaskMatrix, hm]
    exact runVersions_map_version r oracle pOracle fuel t t.versions 0
  · have := runVersions_map_version r oracle pOracle fuel t t.versions 0
    rw [runTaskMatrix, hm]
    calc (runVersions r oracle pOracle fuel t 0 t.versions).length
        = ((runVersions r oracle pOracle fuel t 0 t.versions).map
            VersionRun.version).length := by simp
      _ = t.versions.length := by rw [this]
  · rw [runTaskMatrix, hm, runVersions_map_env]
    exact List.nodup_range' _ _
  · rw [overallPass, List.all_eq_true]
    constructor
    · intro hall rr hrr
      simpa using hall rr hrr
    · intro hall rr hrr
      simpa using hall rr hrr
  · intro rr hrr
    exact runVersions_shape r oracle pOracle fuel t (matrixVersions t) 0 rr
      hrr

/-- C3 witness: the test task declares six versions; with version 3.6
failing to provision, all six versions are still attempted in declared
order. -/
theorem version_matrix_witness :
    testTask.versions ≠ [] ∧
    (runTaskMatrix noxRegistry oracleTrue skip36 50 testTask).map
      VersionRun.version = testTask.versions :=
  ⟨by decide,
   (version_matrix noxRegistry oracleTrue skip36 50 testTask (by decide)).1⟩

theorem execBasics_pass (dir : String) (env : Nat) :
    ∀ bs : List BStep, (execBasics oracleTrue dir env bs).1 = Outcome.pass := by
  intro bs
  induction bs with
  | nil => rfl
  | cons b rest ih => simp [execBasics, oracleTrue, ih]

theorem findTask_mem :
    ∀ (r : List TaskDef) (n : String) (t : TaskDef),
      findTask r n = some t → t ∈ r := by
  intro r
  induction r with
  | nil => intro n t h; simp [findTask] at h
  | cons t0 rest ih =>
    intro n t h
    rw [findTask] at h
    by_cases he : t0.name = n
    · simp [he] at h
      exact h ▸ List.mem_cons_self t0 rest
    · simp [he] at h
      exact List.mem_cons_of_mem t0 (ih n t h)

theorem closed_body (r : List TaskDef) (n : String) (t : TaskDef)
    (hc : closedB r = true) (ht : findTask r n = some t) :
    stepsClosed r t.body = true :=
  List.all_eq_true.mp hc t (findTask_mem r n t ht)

theorem stepsClosed_invoke (r : List TaskDef) (n : String) (rb : Bool)
    (rest : List Step) :
    stepsClosed r (Step.invoke n rb :: rest) =
      ((findTask r n).isSome && stepsClosed r rest) := by
  simp [stepsClosed, stepsInvokes]

theorem edgeB_spec (r : List TaskDef) (a b : String)
    (h : edgeB r a b = true) :
    ∃ t, findTask r a = some t ∧ b ∈ stepsInvokes t.body := by
  rw [edgeB] at h
  cases hf : findTask r a with
  | none => rw [hf] at h; simp at h
  | some t =>
    rw [hf] at h
    exact ⟨t, rfl, of_decide_eq_true h⟩

theorem okc_list (r : List TaskDef) (fuel : Nat)
    (hT : ∀ (n : String) (chain : List String) (dir : String) (env : Nat),
      (findTask r n).isSome = true →
      (execTask r oracleTrue fuel n chain dir env).1 = Outcome.pass ∨
      (execTask r oracleTrue fuel n chain dir env).1 = Outcome.cycleErr ∨
      (execTask r oracleTrue fuel n chain dir env).1 = Outcome.fuelOut) :
    ∀ (steps : List Step) (chain : List String) (dir : String) (env : Nat),
      stepsClosed r steps = true →
      (execList (execTask r oracleTrue fuel) oracleTrue chain dir env
        steps).1 = Outcome.pass ∨
      (execList (execTask r oracleTrue fuel) oracleTrue chain dir env
        steps).1 = Outcome.cycleErr ∨
      (execList (execTask r oracleTrue fuel) oracleTrue chain dir env
        steps).1 = Outcome.fuelOut := by
  intro steps
  induction steps with
  | nil => intro chain dir env _; left; rfl
  | cons s rest ih =>
    intro chain dir env hcl
    cases s with
    | install a =>
      have hrest : stepsClosed r rest = true := by
        simpa [stepsClosed, stepsInvokes] using hcl
      simpa [execList, oracleTrue] using ih chain dir env hrest
    | run a =>
      have hrest : stepsClosed r rest = true := by
        simpa [stepsClosed, stepsInvokes] using hcl
      simpa [execList, oracleTrue] using ih chain dir env hrest
    | withDir d inner =>
      have hrest : stepsClosed r rest = true := by
        simpa [stepsClosed, stepsInvokes] using hcl
      simpa [execList, execBasics_pass] using ih chain dir env hrest
    | invoke n rb =>
      rw [stepsClosed_invoke] at hcl
      obtain ⟨hsome, hrest⟩ : (findTask r n).isSome = true ∧
          stepsClosed r rest = true := by simpa using hcl
      by_cases hch : n ∈ chain
      · simp [execList, hch]
      · rcases hT n chain dir (if rb then env else env + 1) hsome with
          hp | hp | hp
        · simpa [execList, hch, hp] using ih chain dir env hrest
        · simp [execList, hch, hp]
        · simp [execList, hch, hp]

theorem okc_task (r : List TaskDef) :
    ∀ (fuel : Nat) (n : String) (chain : List String) (dir : String)
      (env : Nat),
      closedB r = true → (findTask r n).isSome = true →
      (execTask r oracleTrue fuel n chain dir env).1 = Outcome.pass ∨
      (execTask r oracleTrue fuel n chain dir env).1 = Outcome.cycleErr ∨
      (execTask r oracleTrue fuel n chain dir env).1 = Outcome.fuelOut := by
  intro fuel
  induction fuel with
  | zero => intro n chain dir env _ _; right; right; rfl
  | succ f ih =>
    intro n chain dir env hc hs
    obtain ⟨t, ht⟩ := Option.isSome_iff_exists.mp hs
    have hbody := closed_body r n t hc ht
    have H := okc_list r f (fun m ch d e hm => ih m ch d e hc hm) t.body
      (n :: chain) dir env hbody
    simpa [execTask, ht] using H

theorem cyc_list (r : List TaskDef) (fuel : Nat)
    (hT3 : ∀ (n : String) (chain : List String) (dir : String) (env : Nat),
      (findTask r n).isSome = true →
      (execTask r oracleTrue fuel n chain dir env).1 = Outcome.pass ∨
      (execTask r oracleTrue fuel n chain dir env).1 = Outcome.cycleErr ∨
      (execTask r oracleTrue fuel n chain dir env).1 = Outcome.fuelOut)
    (hTc : ∀ (n : String) (t : TaskDef) (chain : List String) (dir : String)
      (env : Nat) (m : String) (q : List String) (b : String),
      findTask r n = some t → m ∈ stepsInvokes t.body →
      leadsToB r m q b = true → b ∈ n :: chain →
      (execTask r oracleTrue fuel n chain dir env).1 = Outcome.cycleErr ∨
      (execTask r oracleTrue fuel n chain dir env).1 = Outcome.fuelOut) :
    ∀ (steps : List Step) (chain : List String) (dir : String) (env : Nat)
      (m : String) (q : List String) (b : String),
      stepsClosed r steps = true → m ∈ stepsInvokes steps →
      leadsToB r m q b = true → b ∈ chain →
      (execList (execTask r oracleTrue fuel) oracleTrue chain dir env
        steps).1 = Outcome.cycleErr ∨
      (execList (execTask r oracleTrue fuel) oracleTrue chain dir env
        steps).1 = Outcome.fuelOut := by
  intro steps
  induction steps with
  | nil => intro chain dir env m q b _ hm; simp [stepsInvokes] at hm
  | cons s rest ih =>
    intro chain dir env m q b hcl hm hl hb
    cases s with
    | install a =>
      have hrest : stepsClosed r rest = true := by
        simpa [stepsClosed, stepsInvokes] using hcl
      have hm2 : m ∈ stepsInvokes rest := by simpa [stepsInvokes] using hm
      simpa [execList, oracleTrue] using
        ih chain dir env m q b hrest hm2 hl hb
    | run a =>
      have hrest : stepsClosed r rest = true := by
        simpa [stepsClosed, stepsInvokes] using hcl
      have hm2 : m ∈ stepsInvokes rest := by simpa [stepsInvokes] using hm
      simpa [execList, oracleTrue] using
        ih chain dir env m q b hrest hm2 hl hb
    | withDir d inner =>
      have hrest : stepsClosed r rest = true := by
        simpa [stepsClosed, stepsInvokes] using hcl
      have hm2 : m ∈ stepsInvokes rest := by simpa [stepsInvokes] using hm
      simpa [execList, execBasics_pass] using
        ih chain dir env m q b hrest hm2 hl hb
    | invoke n2 rb =>
      rw [stepsClosed_invoke] at hcl
      obtain ⟨hsome, hrest⟩ : (findTask r n2).isSome = true ∧
          stepsClosed r rest = true := by simpa using hcl
      have hm2 : m = n2 ∨ m ∈ stepsInvokes rest := by
        simpa [stepsInvokes] using hm
      by_cases hch : n2 ∈ chain
      · simp [execList, hch]
      · rcases hm2 with rfl | hmrest
        · cases q with
          | nil =>
            have hmb : m = b := by simpa [leadsToB] using hl
            exact absurd (hmb ▸ hb) hch
          | cons c q2 =>
            rw [leadsToB] at hl
            obtain ⟨he, hl2⟩ : edgeB r m c = true ∧
                leadsToB r c q2 b = true := by simpa using hl
            obtain ⟨t, ht, hcmem⟩ := edgeB_spec r m c he
            have H := hTc m t chain dir (if rb then env else env + 1) c q2 b
              ht hcmem hl2 (List.mem_cons_of_mem m hb)
            rcases H with hp | hp
            · simp [execList, hch, hp]
            · simp [execList, hch, hp]
        · rcases hT3 n2 chain dir (if rb then env else env + 1) hsome with
            hp | hp | hp
          · simpa [execList, hch, hp] using
              ih chain dir env m q b hrest hmrest hl hb
          · simp [execList, hch, hp]
          · simp [execList, hch, hp]

theorem cyc_task (r : List TaskDef) :
    ∀ (fuel : Nat) (n : String) (t : TaskDef) (chain : List String)
      (dir : String) (env : Nat) (m : String) (q : List String) (b : String),
      closedB r = true → findTask r n = some t →
      m ∈ stepsInvokes t.body → leadsToB r m q b = true → b ∈ n :: chain →
      (execTask r oracleTrue fuel n chain dir env).1 = Outcome.cycleErr ∨
      (execTask r oracleTrue fuel n chain dir env).1 = Outcome.fuelOut := by
  intro fuel
  induction fuel with
  | zero => intros; right; rfl
  | succ f ih =>
    intro n t chain dir env m q b hc ht hm hl hb
    have hbody := closed_body r n t hc ht
    have H := cyc_list r f
      (fun n2 ch d e hs => okc_task r f n2 ch d e hc hs)
      (fun n2 t2 ch d e m2 q2 b2 ht2 hm2 hl2 hb2 =>
        ih n2 t2 ch d e m2 q2 b2 hc ht2 hm2 hl2 hb2)
      t.body (n :: chain) dir env m q b hbody hm hl hb
    simpa [execTask, ht] using H

/-- C5 amended: in a registry where every invoked name is registered and
every command passes, invoking any task whose body invokes itself directly
or transitively raises the cycle error, provided the run completes within
its fuel; the error is raised exactly when the task name reappears in the
in-progress invocation chain, so no command of the re-invoked occurrence
executes — but commands placed before the cyclic invocation may already
have executed. -/
theorem cycle_detection (r : List TaskDef) (a c : String) (p : List String)
    (fuel : Nat) (hc : closedB r = true) (h1 : edgeB r a c = true)
    (h2 : leadsToB r c p a = true)
    (hf : (invokeTop r oracleTrue fuel a).1 ≠ Outcome.fuelOut) :
    (invokeTop r oracleTrue fuel a).1 = Outcome.cycleErr := by
  obtain ⟨t, ht, hcmem⟩ := edgeB_spec r a c h1
  have H := cyc_task r fuel a t [] "." 0 c p a hc ht hcmem h2
    (List.mem_cons_self a [])
  rcases H with hcyc | hfo
  · simp [invokeTop, execList, hcyc]
  · exact absurd (by simp [invokeTop, execList, hfo]) hf

/-- C5 witness: a two-task cycle (A runs a command, then invokes B, which
invokes A) is reported as a cycle error. -/
theorem cycle_detection_witness :
    (closedB cycR = true ∧ edgeB cycR "A" "B" = true ∧
      leadsToB cycR "B" ["A"] "A" = true ∧
      (invokeTop cycR oracleTrue 10 "A").1 ≠ Outcome.fuelOut) ∧
    (invokeTop cycR oracleTrue 10 "A").1 = Outcome.cycleErr :=
  ⟨⟨by decide, by decide, by decide, by decide⟩,
   cycle_detection cycR "A" "B" ["A"] 10 (by decide) (by decide) (by decide)
     (by decide)⟩

/-- C5 counterexample: a task that runs one command and then invokes
itself does raise the cycle error, but only after that command has
executed — the cycle error does not precede every external command. -/
theorem cycle_after_command_counterexample :
    (invokeTop selfR oracleTrue 10 "A").1 = Outcome.cycleErr ∧
    (invokeTop selfR oracleTrue 10 "A").2.1 =
      [⟨".", 0, Act.cmd ["echo", "hi"]⟩] := by
  decide

end Nox
